import Mathlib

/-!
Verification development for the ananke kore course-management core
(`images/ananke-nbgrader/assets/kore`).  The Python source is shallowly
embedded: strings are lists of characters, file contents are explicit
values, and every external effect (filesystem, subprocess, chmod) is
modelled by an environment flag recording whether that action succeeds.
-/

set_option maxRecDepth 4000

abbrev Str := List Char

/-- The single-quote character, written numerically to keep literals simple. -/
def quoteChar : Char := Char.ofNat 39

/-- Prefix test on character lists: models the prefix comparison that
Python's `str.replace` and `str.startswith` perform. -/
def isPre : Str → Str → Bool
  | [], _ => true
  | _ :: _, [] => false
  | a :: as, b :: bs => a == b && isPre as bs

/-- Substring occurrence test (models Python's `in` on strings). -/
def occurs (needle : Str) : Str → Bool
  | [] => isPre needle []
  | s@(_ :: rest) => isPre needle s || occurs needle rest

/-- Fuel-indexed single pass of Python's `str.replace` (all occurrences,
left to right, non-overlapping).  The fuel only bounds recursion depth;
passing the length of the string always suffices. -/
def replaceAllF (needle repl : Str) : Nat → Str → Str
  | 0, s => s
  | _ + 1, [] => []
  | fuel + 1, c :: cs =>
    if isPre needle (c :: cs) then
      repl ++ replaceAllF needle repl fuel (cs.drop (needle.length - 1))
    else
      c :: replaceAllF needle repl fuel cs

/-- Python `str.replace(needle, repl)` for a non-empty `needle`. -/
def replaceAll (needle repl s : Str) : Str := replaceAllF needle repl s.length s

/-- Split a character list at newline characters (the line structure that
`exec` sees; a trailing newline yields a final empty line). -/
def splitNL : Str → List Str
  | [] => [[]]
  | c :: rest =>
    if c == '\n' then [] :: splitNL rest
    else
      match splitNL rest with
      | [] => [[c]]
      | l :: ls => (c :: l) :: ls

/-- Join lines, terminating every line with a newline — exactly how
`write_autogenerated_config` builds `config_code` (each `+=` fragment
ends in `\n`). -/
def joinNL : List Str → Str
  | [] => []
  | l :: ls => l ++ '\n' :: joinNL ls

/-!
## The registry's restricted value grammar

`write_autogenerated_config` serializes the services, roles and groups
collections with Python `str(...)`; the registry only ever holds
dictionaries whose keys are strings and whose values are strings or lists
of strings (service/role descriptors and group membership lists).  This is
the "restricted grammar" of the spec.  `safeChar` restricts the characters
usable inside those strings so that `str.replace`-based extraction in
`read_autogenerated_config` cannot be confused by value contents.
-/

/-- A value of the registry's restricted grammar: a Python string or a
list of strings (as found in service/role descriptors and group maps). -/
inductive PyField where
  | fstr (s : Str)
  | flist (ss : List Str)
deriving DecidableEq

/-- A Python dict literal of the restricted grammar: insertion-ordered
string-keyed fields. -/
abbrev PyDict := List (Str × PyField)

/-- Characters allowed inside registry strings (the restricted grammar). -/
def safeChar (c : Char) : Bool := c.isAlphanum || c ∈ [' ', '-', '_', '/', ':']

def safeStr (s : Str) : Bool := s.all safeChar

def safeField : PyField → Bool
  | .fstr s => safeStr s
  | .flist ss => ss.all safeStr

def safeDict (d : PyDict) : Bool := d.all fun kv => safeStr kv.1 && safeField kv.2

def safeRegistry (services roles : List PyDict) (groups : PyDict) : Bool :=
  services.all safeDict && roles.all safeDict && safeDict groups

/-- Python `str` of a string: surrounded by single quotes (safe strings
contain no quote or backslash, so no escaping arises). -/
def renderStr (s : Str) : Str := quoteChar :: s ++ [quoteChar]

/-- `", "`-separated concatenation, as Python renders list/dict items. -/
def commaJoin : List Str → Str
  | [] => []
  | [x] => x
  | x :: y :: xs => x ++ ',' :: ' ' :: commaJoin (y :: xs)

/-- Python `str` of a field value. -/
def renderField : PyField → Str
  | .fstr s => renderStr s
  | .flist ss => '[' :: commaJoin (ss.map renderStr) ++ [']']

/-- Python `str` of one `key: value` dict item. -/
def renderKV (kv : Str × PyField) : Str :=
  renderStr kv.1 ++ ':' :: ' ' :: renderField kv.2

/-- Python `str` of a dict of the restricted grammar. -/
def renderDict (d : PyDict) : Str := '{' :: commaJoin (d.map renderKV) ++ ['}']

/-- Every character a rendered dict can contain: safe characters plus the
punctuation `str()` itself produces. -/
def renderChar (c : Char) : Bool :=
  safeChar c || c ∈ [quoteChar, '{', '}', '[', ']', ',', ' ']

/-!
## Parsing rendered values back

`read_autogenerated_config` recovers the collections by `exec`-ing the
rewritten file.  For the restricted grammar this amounts to parsing the
rendered dict literals back; the recursive-descent parser below is the
shallow embedding of that evaluation.  The fuel arguments decrease once
per parsed element, so any fuel at least the element count suffices.
-/

/-- Scan the body of a single-quoted string up to its closing quote. -/
def scanStr : Str → Option (Str × Str)
  | [] => none
  | c :: rest =>
    if c == quoteChar then some ([], rest)
    else (scanStr rest).map fun p => (c :: p.1, p.2)

/-- Parse a single-quoted Python string literal. -/
def parseStr (s : Str) : Option (Str × Str) :=
  if s.head? == some quoteChar then scanStr s.tail else none

/-- Parse the comma-separated items of a non-empty list literal, up to and
including the closing bracket.  The fuel drops once per item. -/
def parseListElems : Nat → Str → Option (List Str × Str)
  | 0, _ => none
  | fuel + 1, input =>
    (parseStr input).bind fun p =>
      if p.2.head? == some ']' then some ([p.1], p.2.tail)
      else if isPre (", ".data) p.2 then
        (parseListElems fuel (p.2.drop 2)).bind fun q => some (p.1 :: q.1, q.2)
      else none

/-- Parse a field value: a list literal or a string literal. -/
def parseField (fuel : Nat) (s : Str) : Option (PyField × Str) :=
  if s.head? == some '[' then
    if s.tail.head? == some ']' then some (.flist [], s.tail.tail)
    else (parseListElems fuel s.tail).map fun p => (.flist p.1, p.2)
  else (parseStr s).map fun p => (.fstr p.1, p.2)

/-- Parse the `key: value` items of a non-empty dict literal, up to and
including the closing brace.  The fuel drops once per item. -/
def parseFields : Nat → Str → Option (PyDict × Str)
  | 0, _ => none
  | fuel + 1, input =>
    (parseStr input).bind fun pk =>
      if isPre (": ".data) pk.2 then
        (parseField fuel (pk.2.drop 2)).bind fun pv =>
          if pv.2.head? == some '}' then some ([(pk.1, pv.1)], pv.2.tail)
          else if isPre (", ".data) pv.2 then
            (parseFields fuel (pv.2.drop 2)).bind fun pr =>
              some ((pk.1, pv.1) :: pr.1, pr.2)
          else none
      else none

/-- Parse a Python dict literal of the restricted grammar. -/
def parseDict (fuel : Nat) (s : Str) : Option (PyDict × Str) :=
  if isPre ("{}".data) s then some ([], s.drop 2)
  else if s.head? == some '{' then parseFields fuel s.tail
  else none

/-- Parse a complete expression that must be exactly one dict literal. -/
def parseExprDict (e : Str) : Option PyDict :=
  match parseDict (e.length + 1) e with
  | some (d, []) => some d
  | _ => none

/-- `commaTail xs` is what follows the first item in `commaJoin (x :: xs)`. -/
def commaTail : List Str → Str
  | [] => []
  | y :: ys => ',' :: ' ' :: commaJoin (y :: ys)

/-- Fuel measure: one unit per dict item plus one per list element. -/
def elemCount : PyField → Nat
  | .fstr _ => 0
  | .flist ss => ss.length

def dictNeed (d : PyDict) : Nat := (d.map fun kv => 1 + elemCount kv.2).sum

/-!
## `write_autogenerated_config` / `read_autogenerated_config` cores

The writer composes the exact file text of
`utils.write_autogenerated_config`; the reader applies the exact
`str.replace` rewrites of `utils.read_autogenerated_config` and then
models `exec` of the resulting straight-line statements.
-/

/-- The accumulator state of the `exec` in `read_autogenerated_config`:
`services, roles, groups = [], [], {}` before execution. -/
structure RegState where
  services : List PyDict
  roles : List PyDict
  groups : PyDict
deriving DecidableEq

def keyIn (k : Str) (d : PyDict) : Bool := d.any fun kv => kv.1 == k

/-- First-match association lookup (Python `dict` access on the unique-key
dicts the registry holds). -/
def alookup (k : Str) : PyDict → Option PyField
  | [] => none
  | kv :: rest => if kv.1 == k then some kv.2 else alookup k rest

/-- Python `dict.update`: existing keys are overwritten in place, new keys
are appended in the update's order. -/
def dictUpdate (old new : PyDict) : PyDict :=
  (old.map fun kv =>
    match alookup kv.1 new with
    | some v => (kv.1, v)
    | none => kv)
  ++ new.filter fun kv => !(keyIn kv.1 old)

/-- Strip `callee …)` around a call argument: the statement forms the
rewritten config file can contain. -/
def stripCall (callee line : Str) : Option Str :=
  if isPre callee line then
    let e := line.drop callee.length
    if e.getLast? == some ')' then some e.dropLast else none
  else none

/-- Execute one line of the rewritten config file (`exec` model): blank
lines and comments are skipped; the three mutating calls update the
state; anything else is an execution error. -/
def execLine (st : RegState) (line : Str) : Option RegState :=
  if line.isEmpty then some st
  else if line.head? == some '#' then some st
  else
    match stripCall ("services.append(".data) line with
    | some e => (parseExprDict e).map fun d => { st with services := st.services ++ [d] }
    | none =>
      match stripCall ("roles.append(".data) line with
      | some e => (parseExprDict e).map fun d => { st with roles := st.roles ++ [d] }
      | none =>
        match stripCall ("groups.update(".data) line with
        | some e => (parseExprDict e).map fun d => { st with groups := dictUpdate st.groups d }
        | none => none

def execLines : RegState → List Str → Option RegState
  | st, [] => some st
  | st, l :: ls =>
    match execLine st l with
    | some st' => execLines st' ls
    | none => none

def codeGetConfig : Str := "c = get_config()".data
def codeServices : Str := "c.JupyterHub.services".data
def codeLoadRoles : Str := "c.JupyterHub.load_roles".data
def codeLoadGroups : Str := "c.JupyterHub.load_groups".data

/-- The four `str.replace` rewrites of `read_autogenerated_config`, in
source order. -/
def applyReplacements (code : Str) : Str :=
  replaceAll codeLoadGroups ("groups".data)
    (replaceAll codeLoadRoles ("roles".data)
      (replaceAll codeServices ("services".data)
        (replaceAll codeGetConfig [] code)))

/-- The pure core of `read_autogenerated_config`: rewrite the file text,
then execute it.  `none` models an uncaught `exec` failure. -/
def extractRegistry (code : Str) : Option RegState :=
  execLines ⟨[], [], []⟩ (splitNL (applyReplacements code))

def headerLine : Str :=
  "# Autogenerated nbgrader course configuration (DO NOT MODIFY)".data

def svcLine (d : PyDict) : Str :=
  "c.JupyterHub.services.append(".data ++ renderDict d ++ [')']

def roleLine (d : PyDict) : Str :=
  "c.JupyterHub.load_roles.append(".data ++ renderDict d ++ [')']

def groupsLine (g : PyDict) : Str :=
  "c.JupyterHub.load_groups.update(".data ++ renderDict g ++ [')']

/-- The lines of the composed config file, in source order; every `+=` in
the source appends a newline, so joining these with newlines reproduces
`config_code` exactly. -/
def configLines (services roles : List PyDict) (groups : PyDict) : List Str :=
  [headerLine, [], codeGetConfig, [], "# Services".data]
    ++ services.map svcLine
    ++ [[], "# Roles".data]
    ++ roles.map roleLine
    ++ [[], "# Groups".data, groupsLine groups]

/-- The file text `write_autogenerated_config` writes. -/
def composeConfigCode (services roles : List PyDict) (groups : PyDict) : Str :=
  joinNL (configLines services roles groups)

/-!
## Effectful wrappers

`write_autogenerated_config` and `read_autogenerated_config` interact
with the filesystem and shell out to `chmod`.  The disk is modelled as
`Option Str` (the registry file's content, or `none` when absent) and
each external action gets a success flag.  Exceptions that escape the
functions are modelled by the `PyErr` they escape as.
-/

inductive PyErr where
  | autogeneratedFileError
  | calledProcessError
  | permissionError
  | attributeError
  | execError
deriving DecidableEq

/-- Outcomes of the external actions `write_autogenerated_config`
performs: `openOk` is the `open(..., mode='w')` call (a `False` models a
`PermissionError`), `chmodOk` the `chmod 600` subprocess (a `False`
models a `CalledProcessError`). -/
structure WriteEnv where
  openOk : Bool
  chmodOk : Bool
deriving DecidableEq

/-- `utils.write_autogenerated_config`: compose the config code; write it
under the advisory lock; then `chmod 600` it.  A `CalledProcessError`
from chmod is re-raised as `AutogeneratedFileError`; a `PermissionError`
from the open is only logged and the function returns normally.  Returns
the raised error (if any) and the resulting file content. -/
def write_autogenerated_config (env : WriteEnv) (disk : Option Str)
    (services roles : List PyDict) (groups : PyDict) :
    Except PyErr Unit × Option Str :=
  if env.openOk then
    let code := composeConfigCode services roles groups
    if env.chmodOk then (.ok (), some code)
    else (.error .autogeneratedFileError, some code)
  else (.ok (), disk)

/-- Outcomes of the external actions `read_autogenerated_config`
performs: `readPermOk` is the first `open(..., mode='r')` (a `False`
models a `PermissionError`), `chmodOk` the `chmod 600` subprocess run
inside the `PermissionError` handler, and `wopenOk`/`wchmodOk` the
actions of the nested `write_autogenerated_config` call made when the
file does not exist. -/
structure ReadEnv where
  readPermOk : Bool
  chmodOk : Bool
  wopenOk : Bool
  wchmodOk : Bool
deriving DecidableEq

/-- `utils.read_autogenerated_config`: read the file (self-healing when
absent by first writing an empty registry; retrying once after
`chmod 600` when unreadable), then rewrite and execute its code.  Note:
a `CalledProcessError` raised by the chmod inside the `PermissionError`
handler is not caught by the sibling `except CalledProcessError` clause
of the same `try` statement, so it escapes as `CalledProcessError`. -/
def read_autogenerated_config (env : ReadEnv) (disk : Option Str) :
    Except PyErr RegState × Option Str :=
  match disk with
  | none =>
    let w := write_autogenerated_config ⟨env.wopenOk, env.wchmodOk⟩ none [] [] []
    match w.1 with
    | .error e => (.error e, w.2)
    | .ok _ =>
      match extractRegistry [] with
      | some reg => (.ok reg, w.2)
      | none => (.error .execError, w.2)
  | some content =>
    if env.readPermOk || env.chmodOk then
      match extractRegistry content with
      | some reg => (.ok reg, disk)
      | none => (.error .execError, disk)
    else (.error .calledProcessError, disk)

/-!
## Path Resolver (`get_active_paths`, `get_backed_up_paths`)

Paths are modelled as component lists (no leading slash component); the
filesystem is a list of entries with a directory flag, home directories
additionally carry their owning group id.  `str(path)` joins components
with `/` and a leading slash.
-/

/-- Split at a separator character (Python `str.split(sep)`). -/
def splitOn (sep : Char) : Str → List Str
  | [] => [[]]
  | c :: rest =>
    if c == sep then [] :: splitOn sep rest
    else
      match splitOn sep rest with
      | [] => [[c]]
      | l :: ls => (c :: l) :: ls

/-- Python `str.removesuffix`. -/
def strEndsWith (suffix s : Str) : Bool := isPre suffix.reverse s.reverse

def pyRemoveSuffix (suffix s : Str) : Str :=
  if strEndsWith suffix s then s.take (s.length - suffix.length) else s

/-- Python `str.lstrip(chars)`: removes leading characters that are
members of the character SET `chars` (not the literal prefix). -/
def pyLstrip (chars s : Str) : Str := s.dropWhile fun c => chars.contains c

/-- Lexicographic comparison of strings by character code (Python `<=`). -/
def strLe : Str → Str → Bool
  | [], _ => true
  | _ :: _, [] => false
  | a :: as, b :: bs => if a == b then strLe as bs else decide (a < b)

def insertSorted (le : Str → Str → Bool) (x : Str) : List Str → List Str
  | [] => [x]
  | y :: ys => if le x y then x :: y :: ys else y :: insertSorted le x ys

/-- Stable sort (models Python `sorted` on the string lists here). -/
def insSort (le : Str → Str → Bool) : List Str → List Str
  | [] => []
  | x :: xs => insertSorted le x (insSort le xs)

inductive Content where
  | COURSES
  | ASSIGNMENTS
  | PROBLEMS
deriving DecidableEq

/-- The `Subset` enum exactly as `models/enums.py` defines it: `ALL`,
`ACTIVE` and `OTHER` — there is no `CURRENT` member. -/
inductive Subset where
  | ALL
  | ACTIVE
  | OTHER
deriving DecidableEq

/-- A top-level home directory as `os.scandir('/home')` reports it, with
the group id `os.stat` reports for it. -/
structure HomeEntry where
  name : Str
  isDir : Bool
  gid : Nat

/-- A filesystem entry: absolute path as its component list, plus whether
it is a directory (otherwise a regular file). -/
structure FSEntry where
  parts : List Str
  isDir : Bool

/-- The filesystem / OS environment the Path Resolver queries. -/
structure PathEnv where
  home : List HomeEntry
  gidName : Nat → Str
  fs : List FSEntry

/-- Python `in` on a dict value: list membership for lists, substring
containment for strings. -/
def pyIn (x : Str) : PyField → Bool
  | .flist ss => ss.contains x
  | .fstr s => occurs x s

/-- Component-list prefix test. -/
def partsStart : List Str → List Str → Bool
  | [], _ => true
  | _ :: _, [] => false
  | a :: as, b :: bs => a == b && partsStart as bs

def fsHas (env : PathEnv) (p : List Str) : Bool := env.fs.any fun e => e.parts == p

def fsIsDir (env : PathEnv) (p : List Str) : Bool :=
  env.fs.any fun e => e.parts == p && e.isDir

def fsIsFile (env : PathEnv) (p : List Str) : Bool :=
  env.fs.any fun e => e.parts == p && !e.isDir

/-- `base.glob('*/')`: immediate child directories. -/
def childDirs (env : PathEnv) (base : List Str) : List (List Str) :=
  (env.fs.filter fun e =>
    e.isDir && e.parts.length == base.length + 1 && partsStart base e.parts).map (·.parts)

/-- `base.rglob('*.ipynb')`: every descendant whose name ends in
`.ipynb`. -/
def ipynbDescendants (env : PathEnv) (base : List Str) : List (List Str) :=
  (env.fs.filter fun e =>
    decide (base.length < e.parts.length) && partsStart base e.parts
      && strEndsWith (".ipynb".data) (e.parts.getLast?.getD [])).map (·.parts)

/-- `str(path)` for a component list. -/
def renderPath (parts : List Str) : Str :=
  parts.foldl (fun acc p => acc ++ '/' :: p) []

/-- Does any parent path component start with a dot?  (`path.parents`
covers every component except the last.) -/
def hiddenParent (parts : List Str) : Bool :=
  parts.dropLast.any fun comp => isPre (".".data) comp

/-- The group names whose membership list contains the user, each passed
through `lstrip('formgrade-')` — the owned-groups computation of
`get_active_paths`. -/
def ownedGroups (user_name : Str) (groups : PyDict) : List Str :=
  (groups.filter fun kv => pyIn user_name kv.2).map fun kv =>
    pyLstrip ("formgrade-".data) kv.1

/-- The `/home` directories whose OS group owner is among the owned
groups. -/
def basePaths (env : PathEnv) (owned : List Str) : List (List Str) :=
  (env.home.filter fun e => e.isDir && owned.contains (env.gidName e.gid)).map
    fun e => ["home".data, e.name]

/-- The candidate paths scanned under one base path for a content kind. -/
def activeCandidates (env : PathEnv) (content : Content) (base : List Str) :
    List (List Str) :=
  match content with
  | .COURSES =>
    let sp := base ++ ["course_data".data]
    if fsHas env sp then [sp] else []
  | .ASSIGNMENTS =>
    let sp := base ++ ["course_data".data, "source".data]
    if fsHas env sp then childDirs env sp else []
  | .PROBLEMS =>
    let sp := base ++ ["course_data".data, "source".data]
    if fsHas env sp then ipynbDescendants env sp else []

/-- The filter expression of `get_active_paths`, with Python's operator
precedence: `is_dir or ((content == PROBLEMS and is_file) and not
any(parent hidden))` — the hidden-parent test only guards the
problem-file conjunct. -/
def keepActive (env : PathEnv) (content : Content) (p : List Str) : Bool :=
  fsIsDir env p
    || (content == .PROBLEMS && fsIsFile env p && !(hiddenParent p))

/-- `utils.get_active_paths`.  For `ALL`/`ACTIVE` it scans owned home
directories; otherwise the source evaluates
`content == Content.COURSES and subset == Subset.CURRENT`, where the
`Subset.CURRENT` attribute access raises `AttributeError` because
`models/enums.py` defines no such member (short-circuiting means the
access only happens when `content == COURSES`; otherwise the function
falls through and returns `None`). -/
def get_active_paths (env : PathEnv) (user_name : Str) (groups : PyDict)
    (content : Content) (subset : Subset) : Except PyErr (Option (List Str)) :=
  match subset with
  | .ALL | .ACTIVE =>
    let owned := ownedGroups user_name groups
    let kept := (basePaths env owned).flatMap fun b =>
      (activeCandidates env content b).filter (keepActive env content)
    .ok (some (insSort strLe (kept.map renderPath)))
  | .OTHER =>
    if content == .COURSES then .error .attributeError
    else .ok none

/-- `base_dir.glob('*/source/')`: child directories named `source` one
level down. -/
def sourceDirs (env : PathEnv) (base : List Str) : List (List Str) :=
  (env.fs.filter fun e =>
    e.isDir && e.parts.length == base.length + 2 && partsStart base e.parts
      && e.parts.getLast?.getD [] == "source".data).map (·.parts)

/-- `utils.get_backed_up_paths`: scans `/var/lib/private/<user>`.  Note
which hidden-name checks each branch applies (courses: parents and own
name; assignments: own name only; problems: parents only). -/
def get_backed_up_paths (env : PathEnv) (user_name : Str) (content : Content) :
    List Str :=
  let base := ["var".data, "lib".data, "private".data, user_name]
  match content with
  | .COURSES =>
    insSort strLe (((childDirs env base).filter fun p =>
      fsIsDir env p && !(hiddenParent p)
        && !(isPre (".".data) (p.getLast?.getD []))).map renderPath)
  | .ASSIGNMENTS =>
    insSort strLe ((((sourceDirs env base).filter (fsIsDir env)).flatMap fun sp =>
      (childDirs env sp).filter fun p =>
        fsIsDir env p && !(isPre (".".data) (p.getLast?.getD []))).map renderPath)
  | .PROBLEMS =>
    insSort strLe ((((sourceDirs env base).filter (fsIsDir env)).flatMap fun sp =>
      (ipynbDescendants env sp).filter fun p =>
        fsIsFile env p && !(hiddenParent p)).map renderPath)

/-- Does any `/`-separated component of a rendered path start with a
dot?  (The spec's notion of a hidden path.) -/
def hasHiddenComponent (s : Str) : Bool :=
  (splitOn '/' s).any fun comp => isPre (".".data) comp

/-!
## Name Deduplicator (`generate_unique_names`)

The per-path label construction follows the source exactly.  In the
deduplication branch the source evaluates `dict(Counter[content_names])`
— a subscript of `typing.Counter` (imported from `typing`) with a list,
which raises `TypeError`; `typeError` models that uncaught exception.
`info.json` lookups are modelled by a map from user name to
`title_short` (`none` models the `InfoFileError` that `load_info`
raises, which `generate_unique_names` re-raises).
-/

/-- Extend `PyErr` usage: additional exception kinds that can escape the
name generator. -/
inductive NameErr where
  | infoFileError
  | indexError
  | typeError
deriving DecidableEq

/-- Python `l[-k]` (raises `IndexError` when out of range). -/
def negIdx (k : Nat) (l : List Str) : Option Str :=
  if k ≤ l.length ∧ 1 ≤ k then l.get? (l.length - k) else none

/-- The label built for one active path (`active_names` loop body). -/
def activeLabel (infoTitle : Str → Option Str) (content : Content) (p : Str) :
    Except NameErr Str :=
  match (splitOn '/' p).get? 2 with
  | none => .error .indexError
  | some user =>
    match infoTitle user with
    | none => .error .infoFileError
    | some title =>
      match content with
      | .COURSES => .ok title
      | .ASSIGNMENTS =>
        .ok ((splitOn '/' (pyRemoveSuffix ("/".data) p)).getLast?.getD []
          ++ " (".data ++ title ++ [')'])
      | .PROBLEMS =>
        .ok ((splitOn '/' (pyRemoveSuffix (".ipynb".data) p)).getLast?.getD []
          ++ " (".data ++ title ++ ", ".data
          ++ (negIdx 2 (splitOn '/' (pyRemoveSuffix ("/".data) p))).getD []
          ++ [')'])

/-- The label built for one backed-up path (`backed_up_names`). -/
def backedLabel (content : Content) (p : Str) : Except NameErr Str :=
  match content with
  | .COURSES =>
    .ok ((splitOn '/' p).getLast?.getD [] ++ " (Backup)".data)
  | .ASSIGNMENTS =>
    match negIdx 3 (splitOn '/' p) with
    | none => .error .indexError
    | some course =>
      .ok ((splitOn '/' p).getLast?.getD [] ++ " (Backup, ".data ++ course ++ [')'])
  | .PROBLEMS =>
    match negIdx 4 (splitOn '/' p), negIdx 2 (splitOn '/' p) with
    | some course, some assign =>
      .ok ((splitOn '/' (pyRemoveSuffix (".ipynb".data) p)).getLast?.getD []
        ++ " (Backup, ".data ++ course ++ ", ".data ++ assign ++ [')'])
    | _, _ => .error .indexError

def hasDup (names : List Str) : Bool := names.any fun n => 1 < names.count n

/-- The per-set body of the uniqueness loop: the `np.unique` count check,
then `dict(Counter[content_names])` — which raises `TypeError` — in the
duplicate branch, else the underscore-to-space rendering. -/
def processNameSet (names : List Str) : Except NameErr (List Str) :=
  if hasDup names then .error .typeError
  else .ok (names.map (replaceAll ("_".data) (" ".data)))

/-- `utils.generate_unique_names`. -/
def generate_unique_names (infoTitle : Str → Option Str) (content : Content)
    (active_paths : List Str) (backed_up_paths : Option (List Str)) :
    Except NameErr (List Str) := do
  let active_names ← active_paths.mapM (activeLabel infoTitle content)
  match backed_up_paths with
  | some bs =>
    if bs.isEmpty then processNameSet active_names
    else do
      let backed_names ← bs.mapM (backedLabel content)
      let a ← processNameSet active_names
      let b ← processNameSet backed_names
      pure (a ++ b)
  | none => processNameSet active_names

/-!
## Reset transition (`PATCH /courses` branch of `courses_route.courses`)

Each external step gets a success flag.  The model records the steps the
branch attempts, in order, and the HTTP-level outcome:

* clearing students from the gradebook is not wrapped in any `try`
  (an exception escapes unhandled);
* the group-membership `systemd-run curl` call is run without
  `check=True`, so its failure raises nothing;
* the exchange-directory removal, the gradebook-file removal and each
  of the four working-directory removals are individually guarded and
  return a `CalledProcessError` response.
-/

structure ResetEnv where
  storeOk : Bool
  curlOk : Bool
  exchangeOk : Bool
  gradebookRmOk : Bool
  autogradedOk : Bool
  feedbackOk : Bool
  releaseOk : Bool
  submittedOk : Bool
deriving DecidableEq

inductive RStep where
  | clearStudents
  | updateGroupMembers
  | clearExchange
  | deleteGradebook
  | rmAutograded
  | rmFeedback
  | rmRelease
  | rmSubmitted
deriving DecidableEq

inductive RResp where
  | success
  | calledProcessError
  | unhandled
deriving DecidableEq

def allResetSteps : List RStep :=
  [.clearStudents, .updateGroupMembers, .clearExchange, .deleteGradebook,
   .rmAutograded, .rmFeedback, .rmRelease, .rmSubmitted]

/-- The reset sequence of the `PATCH` branch: result and attempted steps. -/
def resetCourse (env : ResetEnv) : RResp × List RStep :=
  if !env.storeOk then (.unhandled, [.clearStudents]) else
  -- `systemd-run curl` has no `check=True`: its outcome is ignored.
  if !env.exchangeOk then
    (.calledProcessError, [.clearStudents, .updateGroupMembers, .clearExchange]) else
  if !env.gradebookRmOk then
    (.calledProcessError,
      [.clearStudents, .updateGroupMembers, .clearExchange, .deleteGradebook]) else
  if !env.autogradedOk then
    (.calledProcessError,
      [.clearStudents, .updateGroupMembers, .clearExchange, .deleteGradebook,
       .rmAutograded]) else
  if !env.feedbackOk then
    (.calledProcessError,
      [.clearStudents, .updateGroupMembers, .clearExchange, .deleteGradebook,
       .rmAutograded, .rmFeedback]) else
  if !env.releaseOk then
    (.calledProcessError,
      [.clearStudents, .updateGroupMembers, .clearExchange, .deleteGradebook,
       .rmAutograded, .rmFeedback, .rmRelease]) else
  if !env.submittedOk then
    (.calledProcessError, allResetSteps)
  else (.success, allResetSteps)

/-!
## Delete transition (`DELETE /courses` branch of `courses_route.courses`)

The branch loads the registry, guards on the course's `formgrade-` group
being present (and non-empty: Python `if not group`), mutates the three
collections in memory, writes the registry back and performs the
filesystem / account / title-mapping side effects.  The model records
the external effects in order.
-/

structure DeleteEnv where
  writeOpenOk : Bool
  writeChmodOk : Bool
  rmExchangeOk : Bool
  userdelOk : Bool
  rmHomeOk : Bool
deriving DecidableEq

inductive DelEffect where
  | writeRegistry
  | rmExchange
  | userdel
  | rmHome
  | patchTitles
  | restartHub
deriving DecidableEq

inductive DelResp where
  | groupNotFound
  | autogenFileError
  | calledProcessError
  | ok
  | crash
deriving DecidableEq

/-- Python falsiness of a dict value (`if not group`). -/
def pyFalsy : PyField → Bool
  | .fstr s => s.isEmpty
  | .flist ss => ss.isEmpty

/-- `del d[k]`: remove the key's entry. -/
def eraseKey (k : Str) (d : PyDict) : PyDict := d.filter fun kv => !(kv.1 == k)

/-- Does the role's `'name'` field equal `t`? -/
def nameIs (t : Str) (d : PyDict) : Bool :=
  match alookup ("name".data) d with
  | some (.fstr n) => n == t
  | _ => false

/-- Index of the first element equal to `x` (Python `list.index`). -/
def pyIndexOf (x : PyDict) : List PyDict → Option Nat
  | [] => none
  | y :: ys => if y == x then some 0 else (pyIndexOf x ys).map (· + 1)

/-- Remove the first element equal to `x` (`del l[l.index(x)]`). -/
def eraseFirstEq (x : PyDict) (l : List PyDict) : List PyDict :=
  match pyIndexOf x l with
  | some i => l.eraseIdx i
  | none => l

/-- `del role['services'][role['services'].index(course_id)]`: remove the
first occurrence of the course id from the role's `services` list;
`none` models the `KeyError`/`ValueError` crash when the field or the
course id is missing. -/
def dropServiceEntry (cid : Str) (role : PyDict) : Option PyDict :=
  match alookup ("services".data) role with
  | some (.flist ss) =>
    if ss.contains cid then
      some (role.map fun kv =>
        if kv.1 == "services".data then (kv.1, .flist (ss.erase cid)) else kv)
    else none
  | _ => none

/-- The `for role in roles` loop with its in-place deletions: Python
iterates by index, so deleting the current element skips the next one.
The model assumes the registry holds no duplicate role dicts (deletion
and mutation then act on the iterated element itself). -/
def rolesLoopGo (cid : Str) : Nat → Nat → List PyDict → Option (List PyDict)
  | 0, _, _ => none
  | fuel + 1, i, cur =>
    match cur.get? i with
    | none => some cur
    | some role =>
      let t1 := "formgrader-".data ++ cid ++ "-role".data
      let cur₁ := if nameIs t1 role then eraseFirstEq role cur else cur
      if nameIs ("formgrader-service-role".data) role then
        if nameIs t1 role then
          -- the object was just removed from the list: the mutation still
          -- evaluates (and can crash) but the list no longer contains it
          match dropServiceEntry cid role with
          | none => none
          | some _ => rolesLoopGo cid fuel (i + 1) cur₁
        else
          match dropServiceEntry cid role with
          | none => none
          | some role' =>
            match pyIndexOf role cur₁ with
            | some j => rolesLoopGo cid fuel (i + 1) (cur₁.set j role')
            | none => rolesLoopGo cid fuel (i + 1) cur₁
      else rolesLoopGo cid fuel (i + 1) cur₁

def rolesLoop (cid : Str) (roles : List PyDict) : Option (List PyDict) :=
  rolesLoopGo cid (roles.length + 1) 0 roles

/-- The `for service in services` loop: delete the first service whose
`'name'` equals the course id, then `break`; a service without a
`'name'` key crashes with `KeyError`. -/
def servicesLoopGo (cid : Str) : Nat → Nat → List PyDict → Option (List PyDict)
  | 0, _, _ => none
  | fuel + 1, i, cur =>
    match cur.get? i with
    | none => some cur
    | some svc =>
      match alookup ("name".data) svc with
      | none => none
      | some f =>
        if f == .fstr cid then some (eraseFirstEq svc cur)
        else servicesLoopGo cid fuel (i + 1) cur

def servicesLoop (cid : Str) (services : List PyDict) : Option (List PyDict) :=
  servicesLoopGo cid (services.length + 1) 0 services

/-- The `DELETE` branch, from the group guard onward (the registry has
already been read).  Returns the HTTP-level outcome and the external
effects performed, in order. -/
def coursesDelete (cid : Str) (services roles : List PyDict) (groups : PyDict)
    (env : DeleteEnv) : DelResp × List DelEffect :=
  match alookup ("formgrade-".data ++ cid) groups with
  | none => (.groupNotFound, [])
  | some g =>
    if pyFalsy g then (.groupNotFound, [])
    else
      let groups' := eraseKey ("formgrade-".data ++ cid) groups
      match rolesLoop cid roles with
      | none => (.crash, [])
      | some roles' =>
        match servicesLoop cid services with
        | none => (.crash, [])
        | some services' =>
          let w := write_autogenerated_config ⟨env.writeOpenOk, env.writeChmodOk⟩
            none services' roles' groups'
          let wEff : List DelEffect := if env.writeOpenOk then [.writeRegistry] else []
          match w.1 with
          | .error _ => (.autogenFileError, wEff)
          | .ok _ =>
            if !env.rmExchangeOk then (.calledProcessError, wEff) else
            let eff₁ := wEff ++ [DelEffect.rmExchange]
            if !env.userdelOk then (.calledProcessError, eff₁) else
            let eff₂ := eff₁ ++ [DelEffect.userdel]
            if !env.rmHomeOk then (.calledProcessError, eff₂) else
            (.ok, eff₂ ++ [DelEffect.rmHome, DelEffect.patchTitles, DelEffect.restartHub])

/-!
## Concrete inputs used by witnesses and counterexamples
-/

/-- A one-service registry column in the restricted grammar. -/
def svc0 : List PyDict :=
  [[("name".data, .fstr ("c-1".data)),
    ("command".data, .flist ["jupyterhub-singleuser".data, "c-1".data])]]

def role0 : List PyDict :=
  [[("name".data, .fstr ("formgrader-c-1-role".data)),
    ("services".data, .flist ["c-1".data])]]

def grp0 : PyDict := [("formgrade-c-1".data, .flist ["grader1".data])]

/-- A filesystem with one owned home directory whose assignment source
tree contains a hidden directory. -/
def envC2 : PathEnv where
  home := [⟨"g1".data, true, 100⟩]
  gidName := fun g => if g == 100 then "c-1".data else []
  fs :=
    [⟨["home".data, "g1".data, "course_data".data], true⟩,
     ⟨["home".data, "g1".data, "course_data".data, "source".data], true⟩,
     ⟨["home".data, "g1".data, "course_data".data, "source".data, ".hidden".data],
      true⟩]

def groupsC2 : PyDict := [("formgrade-c-1".data, .flist ["u1".data])]

/-- `info.json` short titles: two courses share the title `Foo`. -/
def infoC3 : Str → Option Str := fun u =>
  if u == "u1".data then some ("Foo".data)
  else if u == "u2".data then some ("Foo".data)
  else if u == "u3".data then some ("Bar".data)
  else none

/-!
## Lemmas: substring search and `str.replace`
-/

theorem isPre_append_self (p rest : Str) : isPre p (p ++ rest) = true := by
  induction p with
  | nil => rfl
  | cons a as ih => simp [isPre, ih]

theorem isPre_append_right {n xs : Str} (h : isPre n xs = true) (t : Str) :
    isPre n (xs ++ t) = true := by
  induction n generalizing xs with
  | nil => rfl
  | cons a as ih =>
    cases xs with
    | nil => simp [isPre] at h
    | cons b bs =>
      simp [isPre] at h ⊢
      exact ⟨h.1, ih h.2⟩

theorem mem_of_isPre {n s : Str} (h : isPre n s = true) : ∀ c ∈ n, c ∈ s := by
  induction n generalizing s with
  | nil => simp
  | cons a as ih =>
    cases s with
    | nil => simp [isPre] at h
    | cons b bs =>
      simp [isPre] at h
      intro c hc
      rcases List.mem_cons.mp hc with rfl | hc
      · simp [h.1]
      · exact List.mem_cons_of_mem _ (ih h.2 c hc)

theorem mem_of_occurs {n s : Str} (h : occurs n s = true) : ∀ c ∈ n, c ∈ s := by
  induction s with
  | nil =>
    cases n with
    | nil => simp
    | cons a as => simp [occurs, isPre] at h
  | cons b bs ih =>
    rw [occurs, Bool.or_eq_true] at h
    rcases h with h | h
    · exact mem_of_isPre h
    · exact fun c hc => List.mem_cons_of_mem _ (ih h c hc)

theorem not_occurs_of_missing {n s : Str} (c : Char) (hc : c ∈ n) (hs : c ∉ s) :
    occurs n s = false := by
  cases h : occurs n s with
  | false => rfl
  | true => exact absurd (mem_of_occurs h c hc) hs

theorem length_le_of_isPre {n s : Str} (h : isPre n s = true) : n.length ≤ s.length := by
  induction n generalizing s with
  | nil => simp
  | cons a as ih =>
    cases s with
    | nil => simp [isPre] at h
    | cons b bs =>
      simp [isPre] at h
      simpa using ih h.2

theorem replaceAllF_nil (n r : Str) (fuel : Nat) : replaceAllF n r fuel [] = [] := by
  cases fuel <;> rfl

theorem length_drop_le (k : Nat) (l : Str) : (l.drop k).length ≤ l.length := by
  rw [List.length_drop]
  omega

theorem replaceAllF_no_occurs {n : Str} (r : Str) {s : Str} (h : occurs n s = false) :
    ∀ fuel, replaceAllF n r fuel s = s := by
  intro fuel
  induction fuel generalizing s with
  | zero => rfl
  | succ fuel ih =>
    cases s with
    | nil => rfl
    | cons c cs =>
      rw [occurs, Bool.or_eq_false_iff] at h
      rw [replaceAllF, if_neg (by simp [h.1]), ih h.2]

theorem replaceAll_no_occurs {n : Str} (r : Str) {s : Str} (h : occurs n s = false) :
    replaceAll n r s = s :=
  replaceAllF_no_occurs r h _

theorem replaceAllF_fuel_eq (n r : Str) :
    ∀ f₁ f₂ s, s.length ≤ f₁ → s.length ≤ f₂ →
      replaceAllF n r f₁ s = replaceAllF n r f₂ s := by
  intro f₁
  induction f₁ with
  | zero =>
    intro f₂ s h₁ _
    rw [List.length_eq_zero.mp (Nat.le_zero.mp h₁), replaceAllF_nil, replaceAllF_nil]
  | succ f₁ ih =>
    intro f₂ s h₁ h₂
    cases s with
    | nil => rw [replaceAllF_nil, replaceAllF_nil]
    | cons c cs =>
      cases f₂ with
      | zero => simp at h₂
      | succ f₂ =>
        simp only [List.length_cons, Nat.succ_le_succ_iff] at h₁ h₂
        rw [replaceAllF, replaceAllF]
        by_cases hpre : isPre n (c :: cs) = true
        · rw [if_pos hpre, if_pos hpre,
            ih f₂ _ (le_trans (length_drop_le _ _) h₁)
              (le_trans (length_drop_le _ _) h₂)]
        · rw [if_neg hpre, if_neg hpre, ih f₂ _ h₁ h₂]

theorem replaceAllF_to_replaceAll {n r s : Str} {fuel : Nat} (h : s.length ≤ fuel) :
    replaceAllF n r fuel s = replaceAll n r s :=
  replaceAllF_fuel_eq n r fuel s.length s h (le_refl _)

theorem replaceAll_cons_pos {n : Str} (r : Str) {c : Char} {cs : Str}
    (h : isPre n (c :: cs) = true) :
    replaceAll n r (c :: cs) = r ++ replaceAll n r (cs.drop (n.length - 1)) := by
  rw [replaceAll, List.length_cons, replaceAllF, if_pos h]
  congr 1
  exact replaceAllF_to_replaceAll (length_drop_le _ _)

theorem replaceAll_cons_neg {n : Str} (r : Str) {c : Char} {cs : Str}
    (h : isPre n (c :: cs) = false) :
    replaceAll n r (c :: cs) = c :: replaceAll n r cs := by
  rw [replaceAll, List.length_cons, replaceAllF, if_neg (by simp [h])]
  congr 1

theorem replaceAll_head_match {n : Str} (r : Str) (rest : Str) (hn : n ≠ []) :
    replaceAll n r (n ++ rest) = r ++ replaceAll n r rest := by
  cases n with
  | nil => exact absurd rfl hn
  | cons a as =>
    rw [List.cons_append, replaceAll_cons_pos r (by
      have := isPre_append_self (a :: as) rest
      simpa using this)]
    congr 2
    simp [List.drop_left']

theorem isPre_of_isPre_append_nl {n : Str} (hnl : '\n' ∉ n) :
    ∀ {xs ys : Str}, isPre n (xs ++ '\n' :: ys) = true → isPre n xs = true := by
  intro xs
  induction n generalizing xs with
  | nil => intro ys _; rfl
  | cons a as ih =>
    intro ys h
    cases xs with
    | nil =>
      exfalso
      simp [isPre] at h
      exact hnl (by simp [h.1])
    | cons b bs =>
      simp [isPre] at h ⊢
      refine ⟨h.1, ih (fun hm => hnl (List.mem_cons_of_mem _ hm)) h.2⟩

theorem replaceAll_newline {n : Str} (r : Str) (hn : n ≠ []) (hnl : '\n' ∉ n) :
    ∀ N xs ys, xs.length ≤ N →
      replaceAll n r (xs ++ '\n' :: ys)
        = replaceAll n r xs ++ '\n' :: replaceAll n r ys := by
  intro N
  induction N with
  | zero =>
    intro xs ys h
    rw [List.length_eq_zero.mp (Nat.le_zero.mp h)]
    have hh : isPre n ('\n' :: ys) = false := by
      cases n with
      | nil => exact absurd rfl hn
      | cons a as =>
        have : (a == '\n') = false := by
          simp only [beq_eq_false_iff_ne, ne_eq]
          intro hEq
          exact hnl (by simp [hEq])
        simp [isPre, this]
    simp only [List.nil_append]
    rw [replaceAll_cons_neg r hh]
    rfl
  | succ N ih =>
    intro xs ys hlen
    cases xs with
    | nil => exact ih [] ys (Nat.zero_le _)
    | cons c cs =>
      simp only [List.length_cons, Nat.succ_le_succ_iff] at hlen
      show replaceAll n r (c :: (cs ++ '\n' :: ys)) = _
      by_cases hpre : isPre n (c :: cs) = true
      · have hpre' : isPre n (c :: (cs ++ '\n' :: ys)) = true := by
          have := isPre_append_right hpre ('\n' :: ys)
          simpa using this
        have hlenn : n.length ≤ cs.length + 1 := by
          simpa using length_le_of_isPre hpre
        rw [replaceAll_cons_pos r hpre', replaceAll_cons_pos r hpre,
          List.drop_append_of_le_length (show n.length - 1 ≤ cs.length by omega)]
        rw [ih _ ys (le_trans (length_drop_le _ _) hlen)]
        simp
      · have hpreF : isPre n (c :: cs) = false := by simpa using hpre
        have hpre' : isPre n (c :: (cs ++ '\n' :: ys)) = false := by
          cases hF : isPre n (c :: (cs ++ '\n' :: ys)) with
          | false => rfl
          | true =>
            exfalso
            have hF' : isPre n ((c :: cs) ++ '\n' :: ys) = true := by simpa using hF
            have := isPre_of_isPre_append_nl hnl hF'
            rw [this] at hpreF
            exact Bool.true_eq_false.mp hpreF
        rw [replaceAll_cons_neg r hpre', replaceAll_cons_neg r hpreF, ih cs ys hlen]
        rfl

theorem replaceAll_joinNL {n : Str} (r : Str) (hn : n ≠ []) (hnl : '\n' ∉ n) :
    ∀ lines : List Str,
      replaceAll n r (joinNL lines) = joinNL (lines.map (replaceAll n r)) := by
  intro lines
  induction lines with
  | nil => simp [joinNL, replaceAll, replaceAllF]
  | cons l ls ih =>
    rw [joinNL, List.map_cons, joinNL, ← ih]
    exact replaceAll_newline r hn hnl l.length l (joinNL ls) (le_refl _)

theorem splitNL_append_nl {l : Str} (hl : '\n' ∉ l) (rest : Str) :
    splitNL (l ++ '\n' :: rest) = l :: splitNL rest := by
  induction l with
  | nil => simp [splitNL]
  | cons c cs ih =>
    have hc : (c == '\n') = false := by
      simp only [beq_eq_false_iff_ne, ne_eq]
      intro hEq
      exact hl (by simp [hEq])
    have ih' := ih (fun hm => hl (List.mem_cons_of_mem _ hm))
    rw [List.cons_append, splitNL]
    rw [if_neg (by simp [hc]), ih']

theorem splitNL_joinNL :
    ∀ lines : List Str, (∀ l ∈ lines, '\n' ∉ l) →
      splitNL (joinNL lines) = lines ++ [[]] := by
  intro lines
  induction lines with
  | nil => intro _; rfl
  | cons l ls ih =>
    intro h
    rw [joinNL, splitNL_append_nl (h l (by simp)), ih (fun x hx => h x (by simp [hx]))]
    rfl

/-!
## Lemmas: characters of rendered values
-/

theorem safeStr_mem {s : Str} {c : Char} (h : safeStr s = true) (hc : c ∈ s) :
    safeChar c = true :=
  List.all_eq_true.mp h c hc

theorem safeChar_ne {c c₀ : Char} (h : safeChar c = true) (h₀ : safeChar c₀ = false) :
    (c == c₀) = false := by
  simp only [beq_eq_false_iff_ne, ne_eq]
  rintro rfl
  rw [h] at h₀
  exact Bool.true_eq_false.mp h₀

theorem renderStr_chars {s : Str} (h : safeStr s = true) :
    ∀ c ∈ renderStr s, renderChar c = true := by
  intro c hc
  rw [renderStr] at hc
  rcases List.mem_cons.mp hc with rfl | hc
  · decide
  · rcases List.mem_append.mp hc with hc | hc
    · simp [renderChar, safeStr_mem h hc]
    · simp only [List.mem_singleton] at hc
      subst hc
      decide

theorem commaJoin_chars {P : Char → Bool} (hco : P ',' = true) (hsp : P ' ' = true) :
    ∀ xs : List Str, (∀ x ∈ xs, ∀ c ∈ x, P c = true) →
      ∀ c ∈ commaJoin xs, P c = true := by
  intro xs
  induction xs with
  | nil => simp [commaJoin]
  | cons x ys ih =>
    intro h c hc
    cases ys with
    | nil => exact h x (by simp) c hc
    | cons y ys' =>
      rw [commaJoin] at hc
      rcases List.mem_append.mp hc with hc | hc
      · exact h x (by simp) c hc
      · rcases List.mem_cons.mp hc with rfl | hc
        · exact hco
        · rcases List.mem_cons.mp hc with rfl | hc
          · exact hsp
          · exact ih (fun z hz => h z (List.mem_cons_of_mem _ hz)) c hc

theorem renderField_chars {f : PyField} (h : safeField f = true) :
    ∀ c ∈ renderField f, renderChar c = true := by
  cases f with
  | fstr s => exact renderStr_chars h
  | flist ss =>
    intro c hc
    rw [renderField] at hc
    rcases List.mem_cons.mp hc with rfl | hc
    · decide
    · rcases List.mem_append.mp hc with hc | hc
      · refine commaJoin_chars (by decide) (by decide) _ ?_ c hc
        intro x hx
        rcases List.mem_map.mp hx with ⟨z, hz, rfl⟩
        exact renderStr_chars (List.all_eq_true.mp h z hz)
      · simp only [List.mem_singleton] at hc
        subst hc
        decide

theorem renderKV_chars {kv : Str × PyField} (hk : safeStr kv.1 = true)
    (hv : safeField kv.2 = true) : ∀ c ∈ renderKV kv, renderChar c = true := by
  intro c hc
  rw [renderKV] at hc
  rcases List.mem_append.mp hc with hc | hc
  · exact renderStr_chars hk c hc
  · rcases List.mem_cons.mp hc with rfl | hc
    · decide
    · rcases List.mem_cons.mp hc with rfl | hc
      · decide
      · exact renderField_chars hv c hc

theorem renderDict_chars {d : PyDict} (h : safeDict d = true) :
    ∀ c ∈ renderDict d, renderChar c = true := by
  intro c hc
  rw [renderDict] at hc
  rcases List.mem_cons.mp hc with rfl | hc
  · decide
  · rcases List.mem_append.mp hc with hc | hc
    · refine commaJoin_chars (by decide) (by decide) _ ?_ c hc
      intro x hx
      rcases List.mem_map.mp hx with ⟨kv, hkv, rfl⟩
      have := List.all_eq_true.mp h kv hkv
      rw [Bool.and_eq_true] at this
      exact renderKV_chars this.1 this.2
    · simp only [List.mem_singleton] at hc
      subst hc
      decide

theorem not_mem_renderDict {d : PyDict} {c : Char} (hd : safeDict d = true)
    (hc : renderChar c = false) : c ∉ renderDict d := by
  intro hm
  rw [renderDict_chars hd c hm] at hc
  exact Bool.true_eq_false.mp hc

/-!
## Lemmas: parser completeness on rendered values
-/

theorem commaJoin_cons (x : Str) (xs : List Str) :
    commaJoin (x :: xs) = x ++ commaTail xs := by
  cases xs <;> simp [commaJoin, commaTail]

theorem commaTail_cons (y : Str) (ys : List Str) :
    commaTail (y :: ys) = ',' :: ' ' :: commaJoin (y :: ys) := rfl

theorem scanStr_complete {s : Str} (h : safeStr s = true) (rest : Str) :
    scanStr (s ++ quoteChar :: rest) = some (s, rest) := by
  induction s with
  | nil => simp [scanStr]
  | cons c cs ih =>
    rw [safeStr, List.all_cons, Bool.and_eq_true] at h
    have hq : (c == quoteChar) = false :=
      safeChar_ne h.1 (show safeChar quoteChar = false from by decide)
    rw [List.cons_append, scanStr, if_neg (by simp [hq]), ih h.2]
    rfl

theorem parseStr_complete {s : Str} (h : safeStr s = true) (rest : Str) :
    parseStr (renderStr s ++ rest) = some (s, rest) := by
  have hshape : renderStr s ++ rest = quoteChar :: (s ++ quoteChar :: rest) := by
    simp [renderStr]
  rw [hshape, parseStr]
  simp only [List.head?_cons, List.tail_cons, beq_self_eq_true, if_pos]
  exact scanStr_complete h rest

theorem parseListElems_complete :
    ∀ (xs : List Str) (fuel : Nat) (x : Str) (rest : Str),
      xs.length < fuel → safeStr x = true → xs.all safeStr = true →
      parseListElems fuel (commaJoin ((x :: xs).map renderStr) ++ ']' :: rest)
        = some (x :: xs, rest) := by
  intro xs
  induction xs with
  | nil =>
    intro fuel x rest hf hx _
    cases fuel with
    | zero => omega
    | succ f =>
      rw [List.map_cons, List.map_nil, commaJoin, parseListElems,
        parseStr_complete hx (']' :: rest)]
      simp
  | cons y ys ih =>
    intro fuel x rest hf hx hys
    cases fuel with
    | zero => omega
    | succ f =>
      rw [List.all_cons, Bool.and_eq_true] at hys
      have hshape :
          commaJoin ((x :: y :: ys).map renderStr) ++ ']' :: rest
            = renderStr x
              ++ ',' :: ' ' :: (commaJoin ((y :: ys).map renderStr) ++ ']' :: rest) := by
        rw [List.map_cons, List.map_cons, commaJoin_cons, commaTail_cons,
          List.append_assoc]
        rfl
      rw [hshape, parseListElems, parseStr_complete hx _]
      simp only [Option.some_bind, List.head?_cons, List.drop_succ_cons, List.drop_zero]
      rw [if_neg (by decide), if_pos (by simp [isPre]),
        ih f y rest (by simpa using hf) hys.1 hys.2]
      rfl

theorem commaJoin_renderStr_head (x : Str) (xs : List Str) (t : Str) :
    (commaJoin ((x :: xs).map renderStr) ++ t).head? = some quoteChar := by
  rw [List.map_cons, commaJoin_cons]
  simp [renderStr]

theorem parseField_complete :
    ∀ (fuel : Nat) (f : PyField) (rest : Str),
      elemCount f ≤ fuel → safeField f = true →
      parseField fuel (renderField f ++ rest) = some (f, rest) := by
  intro fuel f rest hf hsafe
  cases f with
  | fstr s =>
    have hshape : renderField (.fstr s) ++ rest = quoteChar :: (s ++ quoteChar :: rest) := by
      simp [renderField, renderStr]
    rw [parseField, if_neg (by rw [hshape]; simp only [List.head?_cons]; decide)]
    rw [show renderField (.fstr s) = renderStr s from rfl,
      parseStr_complete (show safeStr s = true from hsafe) rest]
    rfl
  | flist ss =>
    cases ss with
    | nil =>
      have hshape : renderField (.flist []) ++ rest = '[' :: ']' :: rest := by
        simp [renderField, commaJoin]
      rw [hshape, parseField]
      simp
    | cons x xs =>
      have hshape : renderField (.flist (x :: xs)) ++ rest
          = '[' :: (commaJoin ((x :: xs).map renderStr) ++ ']' :: rest) := by
        simp [renderField]
      rw [safeField, List.all_cons, Bool.and_eq_true] at hsafe
      rw [hshape, parseField,
        if_pos (by simp only [List.head?_cons]; decide),
        if_neg (by
          simp only [List.tail_cons, commaJoin_renderStr_head]
          decide)]
      rw [List.tail_cons,
        parseListElems_complete xs fuel x rest (by simpa [elemCount] using hf)
          hsafe.1 hsafe.2]
      rfl

theorem commaJoin_renderKV_head (kv : Str × PyField) (kvs : List (Str × PyField))
    (t : Str) :
    (commaJoin ((kv :: kvs).map renderKV) ++ t).head? = some quoteChar := by
  rw [List.map_cons, commaJoin_cons]
  simp [renderKV, renderStr]

theorem parseFields_complete :
    ∀ (kvs : PyDict) (fuel : Nat) (kv : Str × PyField) (rest : Str),
      dictNeed (kv :: kvs) ≤ fuel → safeDict (kv :: kvs) = true →
      parseFields fuel (commaJoin ((kv :: kvs).map renderKV) ++ '}' :: rest)
        = some (kv :: kvs, rest) := by
  intro kvs
  induction kvs with
  | nil =>
    intro fuel kv rest hf hsafe
    rw [safeDict, List.all_cons, Bool.and_eq_true] at hsafe
    rw [Bool.and_eq_true] at hsafe
    cases fuel with
    | zero => simp [dictNeed] at hf
    | succ f =>
      have hshape :
          commaJoin ([kv].map renderKV) ++ '}' :: rest
            = renderStr kv.1 ++ ':' :: ' ' :: (renderField kv.2 ++ '}' :: rest) := by
        rw [List.map_cons, List.map_nil, commaJoin, renderKV, List.append_assoc]
        rfl
      rw [hshape, parseFields, parseStr_complete hsafe.1.1 _]
      simp only [Option.some_bind]
      rw [if_pos (by simp [isPre]), List.drop_succ_cons, List.drop_succ_cons,
        List.drop_zero,
        parseField_complete f kv.2 ('}' :: rest)
          (by simp [dictNeed] at hf; omega) hsafe.1.2]
      simp
  | cons kv' kvs' ih =>
    intro fuel kv rest hf hsafe
    have hsafe' := hsafe
    rw [safeDict, List.all_cons, Bool.and_eq_true] at hsafe'
    rw [Bool.and_eq_true] at hsafe'
    cases fuel with
    | zero => simp [dictNeed] at hf
    | succ f =>
      have hshape :
          commaJoin ((kv :: kv' :: kvs').map renderKV) ++ '}' :: rest
            = renderStr kv.1
              ++ ':' :: ' ' :: (renderField kv.2
                ++ ',' :: ' ' :: (commaJoin ((kv' :: kvs').map renderKV)
                  ++ '}' :: rest)) := by
        rw [List.map_cons, List.map_cons, commaJoin_cons, commaTail_cons,
          ← List.map_cons, renderKV, List.append_assoc, List.append_assoc]
        rfl
      rw [hshape, parseFields, parseStr_complete hsafe'.1.1 _]
      simp only [Option.some_bind]
      rw [if_pos (by simp [isPre]), List.drop_succ_cons, List.drop_succ_cons,
        List.drop_zero,
        parseField_complete f kv.2 _ (by simp [dictNeed] at hf; omega) hsafe'.1.2]
      simp only [Option.some_bind, List.head?_cons]
      rw [if_neg (by decide), if_pos (by simp [isPre]), List.drop_succ_cons,
        List.drop_succ_cons, List.drop_zero,
        ih f kv' rest (by simp [dictNeed] at hf ⊢; omega)
          (show safeDict (kv' :: kvs') = true from hsafe'.2)]
      rfl

theorem parseDict_complete {d : PyDict} (fuel : Nat) (rest : Str)
    (hf : dictNeed d ≤ fuel) (hd : safeDict d = true) :
    parseDict fuel (renderDict d ++ rest) = some (d, rest) := by
  cases d with
  | nil => simp [renderDict, commaJoin, parseDict, isPre]
  | cons kv kvs =>
    have hshape : renderDict (kv :: kvs) ++ rest
        = '{' :: (commaJoin ((kv :: kvs).map renderKV) ++ '}' :: rest) := by
      simp [renderDict]
    rw [hshape, parseDict,
      if_neg (by
        cases hcj : commaJoin ((kv :: kvs).map renderKV) ++ '}' :: rest with
        | nil => exact absurd (congrArg List.head? hcj) (by simp [commaJoin_renderKV_head])
        | cons a t =>
          have : a = quoteChar := by
            have := commaJoin_renderKV_head kv kvs ('}' :: rest)
            rw [hcj] at this
            simpa using this
          subst this
          simp [isPre]
          decide),
      if_pos (by simp), List.tail_cons]
    exact parseFields_complete kvs fuel kv rest hf hd

theorem length_renderStr (s : Str) : (renderStr s).length = s.length + 2 := by
  simp [renderStr]

theorem length_le_commaJoin_renderStr (ss : List Str) :
    ss.length ≤ (commaJoin (ss.map renderStr)).length + 1 := by
  induction ss with
  | nil => simp
  | cons x xs ih =>
    cases xs with
    | nil => simp [commaJoin, length_renderStr]
    | cons y ys =>
      rw [List.map_cons, List.map_cons, commaJoin, ← List.map_cons]
      simp only [List.length_append, List.length_cons, length_renderStr] at ih ⊢
      omega

theorem elemCount_le_length (f : PyField) : elemCount f ≤ (renderField f).length := by
  cases f with
  | fstr s => simp [elemCount]
  | flist ss =>
    have := length_le_commaJoin_renderStr ss
    simp only [elemCount, renderField, List.length_cons, List.length_append,
      List.length_singleton]
    omega

theorem dictNeed_le_commaJoin (d : PyDict) :
    dictNeed d ≤ (commaJoin (d.map renderKV)).length + 1 := by
  induction d with
  | nil => simp [dictNeed]
  | cons kv kvs ih =>
    have hkv : 1 + elemCount kv.2 + 3 ≤ (renderKV kv).length := by
      have := elemCount_le_length kv.2
      simp only [renderKV, List.length_append, List.length_cons, length_renderStr]
      omega
    cases kvs with
    | nil =>
      simp only [dictNeed, List.map_cons, List.map_nil, List.sum_cons, List.sum_nil,
        commaJoin] at *
      omega
    | cons kv' kvs' =>
      rw [List.map_cons, List.map_cons, commaJoin, ← List.map_cons]
      simp only [dictNeed, List.map_cons, List.sum_cons, List.length_append,
        List.length_cons] at ih ⊢
      omega

theorem dictNeed_le (d : PyDict) : dictNeed d ≤ (renderDict d).length + 1 := by
  have := dictNeed_le_commaJoin d
  simp only [renderDict, List.length_cons, List.length_append, List.length_singleton]
  omega

theorem parseExprDict_render {d : PyDict} (hd : safeDict d = true) :
    parseExprDict (renderDict d) = some d := by
  rw [parseExprDict]
  have h := parseDict_complete ((renderDict d).length + 1) []
    (by have := dictNeed_le d; omega) hd
  rw [List.append_nil] at h
  rw [h]

/-!
## Lemmas: the four rewrites on each composed line

Concrete lines are computed outright; for the three parametric line
shapes, the needles are located explicitly: a needle either has a
character that cannot occur in the line at all, or matches exactly at the
head, and the remainder is checked by unrolling the concrete part and
using that `.` and `=` cannot occur inside a rendered dict.
-/

theorem not_mem_line {c : Char} {pre B : Str} (h1 : c ∉ pre) (h2 : c ∉ B)
    (h3 : c ≠ ')') : c ∉ pre ++ (B ++ [')']) := by
  intro hm
  rcases List.mem_append.mp hm with hm | hm
  · exact h1 hm
  · rcases List.mem_append.mp hm with hm | hm
    · exact h2 hm
    · rw [List.mem_singleton] at hm
      exact h3 hm

theorem not_mem_commaJoinKV {d : PyDict} {c : Char} (hd : safeDict d = true)
    (hc : renderChar c = false) (h1 : c ≠ '}') (h2 : c ≠ ')') :
    c ∉ commaJoin (d.map renderKV) ++ ['}', ')'] := by
  intro hm
  rcases List.mem_append.mp hm with hm | hm
  · exact not_mem_renderDict hd hc
      (by rw [renderDict]; exact List.mem_cons_of_mem _ (List.mem_append_left _ hm))
  · rcases List.mem_cons.mp hm with rfl | hm
    · exact h1 rfl
    · rw [List.mem_singleton] at hm
      exact h2 hm

theorem applyReplacements_header : applyReplacements headerLine = headerLine := by decide

theorem applyReplacements_nil : applyReplacements [] = [] := rfl

theorem applyReplacements_getcfg : applyReplacements codeGetConfig = [] := by decide

theorem applyReplacements_svcsComment :
    applyReplacements ("# Services".data) = "# Services".data := by decide

theorem applyReplacements_rolesComment :
    applyReplacements ("# Roles".data) = "# Roles".data := by decide

theorem applyReplacements_groupsComment :
    applyReplacements ("# Groups".data) = "# Groups".data := by decide

theorem applyReplacements_svcLine {d : PyDict} (hd : safeDict d = true) :
    applyReplacements (svcLine d)
      = "services.append(".data ++ (renderDict d ++ [')']) := by
  have hdot : '.' ∉ renderDict d ++ [')'] := by
    intro hm
    rcases List.mem_append.mp hm with hm | hm
    · exact not_mem_renderDict hd (by decide) hm
    · rw [List.mem_singleton] at hm
      exact absurd hm (by decide)
  have heqB : '=' ∉ renderDict d := not_mem_renderDict hd (by decide)
  have hline : svcLine d
      = "c.JupyterHub.services.append(".data ++ (renderDict d ++ [')']) := by
    rw [svcLine, List.append_assoc]
  have h1 : replaceAll codeGetConfig [] (svcLine d) = svcLine d := by
    refine replaceAll_no_occurs _ (not_occurs_of_missing '=' (by decide) ?_)
    rw [hline]
    exact not_mem_line (by decide) heqB (by decide)
  have h2 : replaceAll codeServices ("services".data) (svcLine d)
      = "services.append(".data ++ (renderDict d ++ [')']) := by
    have hs : svcLine d
        = codeServices ++ (".append(".data ++ (renderDict d ++ [')'])) := by
      rw [hline]
      rfl
    rw [hs, replaceAll_head_match _ _ (by decide)]
    have hocc : occurs ("c.JupyterHub.services".data)
        (commaJoin (d.map renderKV) ++ ['}', ')']) = false :=
      not_occurs_of_missing '.' (by decide)
        (not_mem_commaJoinKV hd (by decide) (by decide) (by decide))
    rw [replaceAll_no_occurs _ (by simp +decide [codeServices, occurs, isPre, hocc])]
    rfl
  have h3 : replaceAll codeLoadRoles ("roles".data)
      ("services.append(".data ++ (renderDict d ++ [')']))
      = "services.append(".data ++ (renderDict d ++ [')']) := by
    have hocc : occurs ("c.JupyterHub.load_roles".data)
        (commaJoin (d.map renderKV) ++ ['}', ')']) = false :=
      not_occurs_of_missing '.' (by decide)
        (not_mem_commaJoinKV hd (by decide) (by decide) (by decide))
    exact replaceAll_no_occurs _ (by simp +decide [codeLoadRoles, occurs, isPre, hocc])
  have h4 : replaceAll codeLoadGroups ("groups".data)
      ("services.append(".data ++ (renderDict d ++ [')']))
      = "services.append(".data ++ (renderDict d ++ [')']) := by
    have hocc : occurs ("c.JupyterHub.load_groups".data)
        (commaJoin (d.map renderKV) ++ ['}', ')']) = false :=
      not_occurs_of_missing '.' (by decide)
        (not_mem_commaJoinKV hd (by decide) (by decide) (by decide))
    exact replaceAll_no_occurs _ (by simp +decide [codeLoadGroups, occurs, isPre, hocc])
  rw [applyReplacements, h1, h2, h3, h4]

theorem applyReplacements_roleLine {d : PyDict} (hd : safeDict d = true) :
    applyReplacements (roleLine d)
      = "roles.append(".data ++ (renderDict d ++ [')']) := by
  have hdot : '.' ∉ renderDict d ++ [')'] := by
    intro hm
    rcases List.mem_append.mp hm with hm | hm
    · exact not_mem_renderDict hd (by decide) hm
    · rw [List.mem_singleton] at hm
      exact absurd hm (by decide)
  have heqB : '=' ∉ renderDict d := not_mem_renderDict hd (by decide)
  have hline : roleLine d
      = "c.JupyterHub.load_roles.append(".data ++ (renderDict d ++ [')']) := by
    rw [roleLine, List.append_assoc]
  have h1 : replaceAll codeGetConfig [] (roleLine d) = roleLine d := by
    refine replaceAll_no_occurs _ (not_occurs_of_missing '=' (by decide) ?_)
    rw [hline]
    exact not_mem_line (by decide) heqB (by decide)
  have h2 : replaceAll codeServices ("services".data) (roleLine d) = roleLine d := by
    have hocc : occurs ("c.JupyterHub.services".data)
        (commaJoin (d.map renderKV) ++ ['}', ')']) = false :=
      not_occurs_of_missing '.' (by decide)
        (not_mem_commaJoinKV hd (by decide) (by decide) (by decide))
    refine replaceAll_no_occurs _ ?_
    rw [hline]
    simp +decide [codeServices, occurs, isPre, hocc]
  have h3 : replaceAll codeLoadRoles ("roles".data) (roleLine d)
      = "roles.append(".data ++ (renderDict d ++ [')']) := by
    have hs : roleLine d
        = codeLoadRoles ++ (".append(".data ++ (renderDict d ++ [')'])) := by
      rw [hline]
      rfl
    rw [hs, replaceAll_head_match _ _ (by decide)]
    have hocc : occurs ("c.JupyterHub.load_roles".data)
        (commaJoin (d.map renderKV) ++ ['}', ')']) = false :=
      not_occurs_of_missing '.' (by decide)
        (not_mem_commaJoinKV hd (by decide) (by decide) (by decide))
    rw [replaceAll_no_occurs _ (by simp +decide [codeLoadRoles, occurs, isPre, hocc])]
    rfl
  have h4 : replaceAll codeLoadGroups ("groups".data)
      ("roles.append(".data ++ (renderDict d ++ [')']))
      = "roles.append(".data ++ (renderDict d ++ [')']) := by
    have hocc : occurs ("c.JupyterHub.load_groups".data)
        (commaJoin (d.map renderKV) ++ ['}', ')']) = false :=
      not_occurs_of_missing '.' (by decide)
        (not_mem_commaJoinKV hd (by decide) (by decide) (by decide))
    exact replaceAll_no_occurs _ (by simp +decide [codeLoadGroups, occurs, isPre, hocc])
  rw [applyReplacements, h1, h2, h3, h4]

theorem applyReplacements_groupsLine {d : PyDict} (hd : safeDict d = true) :
    applyReplacements (groupsLine d)
      = "groups.update(".data ++ (renderDict d ++ [')']) := by
  have hdot : '.' ∉ renderDict d ++ [')'] := by
    intro hm
    rcases List.mem_append.mp hm with hm | hm
    · exact not_mem_renderDict hd (by decide) hm
    · rw [List.mem_singleton] at hm
      exact absurd hm (by decide)
  have heqB : '=' ∉ renderDict d := not_mem_renderDict hd (by decide)
  have hline : groupsLine d
      = "c.JupyterHub.load_groups.update(".data ++ (renderDict d ++ [')']) := by
    rw [groupsLine, List.append_assoc]
  have h1 : replaceAll codeGetConfig [] (groupsLine d) = groupsLine d := by
    refine replaceAll_no_occurs _ (not_occurs_of_missing '=' (by decide) ?_)
    rw [hline]
    exact not_mem_line (by decide) heqB (by decide)
  have h2 : replaceAll codeServices ("services".data) (groupsLine d) = groupsLine d := by
    have hocc : occurs ("c.JupyterHub.services".data)
        (commaJoin (d.map renderKV) ++ ['}', ')']) = false :=
      not_occurs_of_missing '.' (by decide)
        (not_mem_commaJoinKV hd (by decide) (by decide) (by decide))
    refine replaceAll_no_occurs _ ?_
    rw [hline]
    simp +decide [codeServices, occurs, isPre, hocc]
  have h3 : replaceAll codeLoadRoles ("roles".data) (groupsLine d) = groupsLine d := by
    have hocc : occurs ("c.JupyterHub.load_roles".data)
        (commaJoin (d.map renderKV) ++ ['}', ')']) = false :=
      not_occurs_of_missing '.' (by decide)
        (not_mem_commaJoinKV hd (by decide) (by decide) (by decide))
    refine replaceAll_no_occurs _ ?_
    rw [hline]
    simp +decide [codeLoadRoles, occurs, isPre, hocc]
  have h4 : replaceAll codeLoadGroups ("groups".data) (groupsLine d)
      = "groups.update(".data ++ (renderDict d ++ [')']) := by
    have hs : groupsLine d
        = codeLoadGroups ++ (".update(".data ++ (renderDict d ++ [')'])) := by
      rw [hline]
      rfl
    rw [hs, replaceAll_head_match _ _ (by decide)]
    have hocc : occurs ("c.JupyterHub.load_groups".data)
        (commaJoin (d.map renderKV) ++ ['}', ')']) = false :=
      not_occurs_of_missing '.' (by decide)
        (not_mem_commaJoinKV hd (by decide) (by decide) (by decide))
    rw [replaceAll_no_occurs _ (by simp +decide [codeLoadGroups, occurs, isPre, hocc])]
    rfl
  rw [applyReplacements, h1, h2, h3, h4]

/-!
## Lemmas: executing the rewritten lines
-/

theorem execLine_empty (st : RegState) : execLine st [] = some st := rfl

theorem execLine_comment (st : RegState) (cs : Str) :
    execLine st ('#' :: cs) = some st := by
  rw [execLine, if_neg (by simp), if_pos (by simp)]

theorem execLines_cons_skip {st st' : RegState} {l : Str}
    (h : execLine st l = some st') (ls : List Str) :
    execLines st (l :: ls) = execLines st' ls := by
  rw [execLines, h]

theorem stripCall_append (callee body : Str) :
    stripCall callee (callee ++ (body ++ [')'])) = some body := by
  rw [stripCall, if_pos (by simpa using isPre_append_self callee _)]
  simp only [List.drop_left, List.getLast?_concat, beq_self_eq_true, if_pos,
    List.dropLast_concat]

theorem execLine_svc {st : RegState} {d : PyDict} (hd : safeDict d = true) :
    execLine st ("services.append(".data ++ (renderDict d ++ [')']))
      = some { st with services := st.services ++ [d] } := by
  have h0 : (("services.append(".data ++ (renderDict d ++ [')'])) : Str).isEmpty
      = false := rfl
  have h1 : (("services.append(".data ++ (renderDict d ++ [')'])) : Str).head?
      = some 's' := rfl
  rw [execLine, if_neg (by simp [h0]), if_neg (by rw [h1]; decide)]
  rw [stripCall_append]
  simp [parseExprDict_render hd]

theorem roles_stripCall_svc (body : Str) :
    stripCall ("services.append(".data) ("roles.append(".data ++ (body ++ [')'])) = none := by
  rw [stripCall, if_neg (by simp +decide [isPre])]

theorem groups_stripCall_svc (body : Str) :
    stripCall ("services.append(".data) ("groups.update(".data ++ (body ++ [')'])) = none := by
  rw [stripCall, if_neg (by simp +decide [isPre])]

theorem groups_stripCall_role (body : Str) :
    stripCall ("roles.append(".data) ("groups.update(".data ++ (body ++ [')'])) = none := by
  rw [stripCall, if_neg (by simp +decide [isPre])]

theorem execLine_role {st : RegState} {d : PyDict} (hd : safeDict d = true) :
    execLine st ("roles.append(".data ++ (renderDict d ++ [')']))
      = some { st with roles := st.roles ++ [d] } := by
  have h0 : (("roles.append(".data ++ (renderDict d ++ [')'])) : Str).isEmpty
      = false := rfl
  have h1 : (("roles.append(".data ++ (renderDict d ++ [')'])) : Str).head?
      = some 'r' := rfl
  rw [execLine, if_neg (by simp [h0]), if_neg (by rw [h1]; decide)]
  rw [roles_stripCall_svc, stripCall_append]
  simp [parseExprDict_render hd]

theorem execLine_groups {st : RegState} {d : PyDict} (hd : safeDict d = true) :
    execLine st ("groups.update(".data ++ (renderDict d ++ [')']))
      = some { st with groups := dictUpdate st.groups d } := by
  have h0 : (("groups.update(".data ++ (renderDict d ++ [')'])) : Str).isEmpty
      = false := rfl
  have h1 : (("groups.update(".data ++ (renderDict d ++ [')'])) : Str).head?
      = some 'g' := rfl
  rw [execLine, if_neg (by simp [h0]), if_neg (by rw [h1]; decide)]
  rw [groups_stripCall_svc, groups_stripCall_role, stripCall_append]
  simp [parseExprDict_render hd]

theorem execLines_svcs {ds : List PyDict} (hds : ds.all safeDict = true) :
    ∀ (st : RegState) (rest : List Str),
      execLines st
          ((ds.map fun d => "services.append(".data ++ (renderDict d ++ [')'])) ++ rest)
        = execLines { st with services := st.services ++ ds } rest := by
  induction ds with
  | nil =>
    intro st rest
    rw [List.map_nil, List.nil_append, List.append_nil]
  | cons d ds ih =>
    intro st rest
    rw [List.all_cons, Bool.and_eq_true] at hds
    rw [List.map_cons, List.cons_append,
      execLines_cons_skip (execLine_svc hds.1) _, ih hds.2]
    have : (st.services ++ [d]) ++ ds = st.services ++ d :: ds := by simp
    simp only [this]

theorem execLines_roles {ds : List PyDict} (hds : ds.all safeDict = true) :
    ∀ (st : RegState) (rest : List Str),
      execLines st
          ((ds.map fun d => "roles.append(".data ++ (renderDict d ++ [')'])) ++ rest)
        = execLines { st with roles := st.roles ++ ds } rest := by
  induction ds with
  | nil =>
    intro st rest
    rw [List.map_nil, List.nil_append, List.append_nil]
  | cons d ds ih =>
    intro st rest
    rw [List.all_cons, Bool.and_eq_true] at hds
    rw [List.map_cons, List.cons_append,
      execLines_cons_skip (execLine_role hds.1) _, ih hds.2]
    have : (st.roles ++ [d]) ++ ds = st.roles ++ d :: ds := by simp
    simp only [this]

theorem dictUpdate_nil (g : PyDict) : dictUpdate [] g = g := by
  rw [dictUpdate, List.map_nil, List.nil_append]
  refine List.filter_eq_self.mpr fun kv _ => by simp [keyIn]

theorem execLines_block1 (st : RegState) (X : List Str) :
    execLines st
        ([headerLine, [], [], [], "# Services".data] ++ X) = execLines st X := rfl

theorem execLines_block2 (st : RegState) (X : List Str) :
    execLines st ([[], "# Roles".data] ++ X) = execLines st X := rfl

theorem execLines_groups_block {st : RegState} {g : PyDict} (hg : safeDict g = true) :
    execLines st
        ([[], "# Groups".data, "groups.update(".data ++ (renderDict g ++ [')'])] ++ [[]])
      = some { st with groups := dictUpdate st.groups g } := by
  show execLines st
      ([] :: ("# Groups".data)
        :: ("groups.update(".data ++ (renderDict g ++ [')'])) :: [[]]) = _
  rw [execLines_cons_skip (execLine_empty st) _,
    execLines_cons_skip (show execLine st ("# Groups".data) = some st from
      execLine_comment st _) _,
    execLines_cons_skip (execLine_groups hg) _]
  rfl

/-!
## The round trip of the composed configuration file
-/

theorem extractRegistry_compose {services roles : List PyDict} {groups : PyDict}
    (h : safeRegistry services roles groups = true) :
    extractRegistry (composeConfigCode services roles groups)
      = some ⟨services, roles, groups⟩ := by
  rw [safeRegistry, Bool.and_eq_true, Bool.and_eq_true] at h
  obtain ⟨⟨hs, hr⟩, hg⟩ := h
  rw [extractRegistry, composeConfigCode, applyReplacements,
    replaceAll_joinNL _ (by decide) (by decide),
    replaceAll_joinNL _ (by decide) (by decide),
    replaceAll_joinNL _ (by decide) (by decide),
    replaceAll_joinNL _ (by decide) (by decide)]
  simp only [List.map_map]
  have hcomp :
      (replaceAll codeLoadGroups ("groups".data))
          ∘ (replaceAll codeLoadRoles ("roles".data))
          ∘ (replaceAll codeServices ("services".data))
          ∘ (replaceAll codeGetConfig [])
        = applyReplacements := by
    funext l
    simp [applyReplacements, Function.comp]
  rw [hcomp, configLines]
  simp only [List.map_append, List.map_cons, List.map_nil, List.map_map]
  rw [applyReplacements_header, applyReplacements_nil, applyReplacements_getcfg,
    applyReplacements_svcsComment, applyReplacements_rolesComment,
    applyReplacements_groupsComment]
  have esvc : services.map (applyReplacements ∘ svcLine)
      = services.map fun d => "services.append(".data ++ (renderDict d ++ [')']) :=
    List.map_congr_left fun d hd' => by
      simpa [Function.comp] using applyReplacements_svcLine (List.all_eq_true.mp hs d hd')
  have erole : roles.map (applyReplacements ∘ roleLine)
      = roles.map fun d => "roles.append(".data ++ (renderDict d ++ [')']) :=
    List.map_congr_left fun d hd' => by
      simpa [Function.comp] using applyReplacements_roleLine (List.all_eq_true.mp hr d hd')
  rw [esvc, erole, applyReplacements_groupsLine hg]
  rw [splitNL_joinNL _ ?nonl]
  case nonl =>
    intro l hl
    simp only [List.mem_append, List.mem_cons, List.mem_map, List.mem_singleton,
      List.not_mem_nil, or_false] at hl
    rcases hl with ((((rfl | rfl | rfl | rfl | rfl) | ⟨d, hd', rfl⟩) | (rfl | rfl)) |
      ⟨d, hd', rfl⟩) | (rfl | rfl | rfl)
    · decide
    · decide
    · decide
    · decide
    · decide
    · exact not_mem_line (by decide)
        (not_mem_renderDict (List.all_eq_true.mp hs d hd') (by decide)) (by decide)
    · decide
    · decide
    · exact not_mem_line (by decide)
        (not_mem_renderDict (List.all_eq_true.mp hr d hd') (by decide)) (by decide)
    · decide
    · decide
    · exact not_mem_line (by decide) (not_mem_renderDict hg (by decide)) (by decide)
  simp only [List.append_assoc]
  rw [execLines_block1, execLines_svcs hs, execLines_block2, execLines_roles hr,
    execLines_groups_block hg]
  simp [dictUpdate_nil]

/-- Happy-path reading of a present, readable registry file. -/
theorem read_ok_of_extract {env : ReadEnv} {content : Str} {reg : RegState}
    (henv : env.readPermOk = true) (hex : extractRegistry content = some reg) :
    read_autogenerated_config env (some content) = (.ok reg, some content) := by
  simp [read_autogenerated_config, henv, hex]

/-!
## Claim theorems
-/

/-- C1: Registry round trip — for every `{services, roles, groups}`
triple expressible in the registry's restricted grammar, writing it with
`write_autogenerated_config` and reading the same file back with
`read_autogenerated_config` reconstructs an equal triple. -/
theorem C1_registry_round_trip (services roles : List PyDict) (groups : PyDict)
    (disk : Option Str) (h : safeRegistry services roles groups = true) :
    (read_autogenerated_config ⟨true, true, true, true⟩
        (write_autogenerated_config ⟨true, true⟩ disk services roles groups).2).1
      = .ok ⟨services, roles, groups⟩ := by
  have hw : (write_autogenerated_config ⟨true, true⟩ disk services roles groups).2
      = some (composeConfigCode services roles groups) := rfl
  rw [hw, read_ok_of_extract rfl (extractRegistry_compose h)]

/-- C1 witness: the round trip at a concrete one-course registry. -/
theorem C1_registry_round_trip_witness :
    (read_autogenerated_config ⟨true, true, true, true⟩
        (write_autogenerated_config ⟨true, true⟩ none svc0 role0 grp0).2).1
      = .ok ⟨svc0, role0, grp0⟩ :=
  C1_registry_round_trip svc0 role0 grp0 none (by decide)

/-- C2: a hidden path is returned by the Path Resolver — the filter's
missing parentheses (`is_dir or (… and is_file) and not hidden`) exempt
directories from the hidden check, so an assignment directory named
`.hidden` is returned by `get_active_paths`. -/
theorem C2_hidden_path_returned :
    get_active_paths envC2 ("u1".data) groupsC2 .ASSIGNMENTS .ACTIVE
      = .ok (some [("/home/g1/course_data/source/.hidden".data)])
    ∧ hasHiddenComponent ("/home/g1/course_data/source/.hidden".data) = true :=
  ⟨rfl, rfl⟩

/-- C3: labels `["Foo", "Foo", "Bar"]` make `generate_unique_names`
fail with a `TypeError` — the deduplication branch evaluates
`dict(Counter[content_names])`, a subscript of `typing.Counter` — instead
of returning `["Foo", "Foo (1)", "Bar"]`. -/
theorem C3_dedup_crashes :
    generate_unique_names infoC3 .COURSES
        [("/home/u1/course_data".data), ("/home/u2/course_data".data),
         ("/home/u3/course_data".data)] none
      = .error .typeError := rfl

/-- C4 counterexample: with the hub group-membership call failing and all
other steps succeeding, the reset sequence does not stop at that step and
does not report its failure: it attempts every later step and reports
success (the `systemd-run curl` call is run without `check=True`). -/
theorem C4_counterexample :
    resetCourse ⟨true, false, true, true, true, true, true, true⟩
      = (.success, allResetSteps) := rfl

/-- C4 amended: the exchange-clearing, gradebook-deletion and the four
working-directory removals are each independently guarded — the first of
them to fail stops the sequence there and reports CalledProcessError;
the student-clearing step is unguarded (its failure escapes unhandled
after only that step), and a failure of the membership call never stops
the sequence. -/
theorem C4_reset_guarding (env : ResetEnv) :
    (env.storeOk = false → resetCourse env = (.unhandled, [.clearStudents]))
    ∧ (env.storeOk = true → env.exchangeOk = false →
        resetCourse env = (.calledProcessError,
          [.clearStudents, .updateGroupMembers, .clearExchange]))
    ∧ (env.storeOk = true → env.exchangeOk = true → env.gradebookRmOk = false →
        resetCourse env = (.calledProcessError,
          [.clearStudents, .updateGroupMembers, .clearExchange, .deleteGradebook]))
    ∧ (env.storeOk = true → env.exchangeOk = true → env.gradebookRmOk = true →
        env.autogradedOk = false →
        resetCourse env = (.calledProcessError,
          [.clearStudents, .updateGroupMembers, .clearExchange, .deleteGradebook,
           .rmAutograded]))
    ∧ (env.storeOk = true → env.exchangeOk = true → env.gradebookRmOk = true →
        env.autogradedOk = true → env.feedbackOk = false →
        resetCourse env = (.calledProcessError,
          [.clearStudents, .updateGroupMembers, .clearExchange, .deleteGradebook,
           .rmAutograded, .rmFeedback]))
    ∧ (env.storeOk = true → env.exchangeOk = true → env.gradebookRmOk = true →
        env.autogradedOk = true → env.feedbackOk = true → env.releaseOk = false →
        resetCourse env = (.calledProcessError,
          [.clearStudents, .updateGroupMembers, .clearExchange, .deleteGradebook,
           .rmAutograded, .rmFeedback, .rmRelease]))
    ∧ (env.storeOk = true → env.exchangeOk = true → env.gradebookRmOk = true →
        env.autogradedOk = true → env.feedbackOk = true → env.releaseOk = true →
        env.submittedOk = false →
        resetCourse env = (.calledProcessError, allResetSteps))
    ∧ (env.storeOk = true → env.exchangeOk = true → env.gradebookRmOk = true →
        env.autogradedOk = true → env.feedbackOk = true → env.releaseOk = true →
        env.submittedOk = true → resetCourse env = (.success, allResetSteps)) := by
  obtain ⟨s, c, e, g, a, f, r, su⟩ := env
  cases s <;> cases c <;> cases e <;> cases g <;> cases a <;> cases f <;> cases r <;>
    cases su <;>
    exact ⟨by decide, by decide, by decide, by decide, by decide, by decide, by decide,
      by decide⟩

/-- C4 witness: the gradebook-deletion step failing stops the sequence
right there with a CalledProcessError report. -/
theorem C4_reset_guarding_witness :
    resetCourse ⟨true, true, true, false, true, true, true, true⟩
      = (.calledProcessError,
          [.clearStudents, .updateGroupMembers, .clearExchange, .deleteGradebook]) :=
  (C4_reset_guarding ⟨true, true, true, false, true, true, true, true⟩).2.2.1 rfl rfl rfl

/-- C5: deleting a course whose `formgrade-<course_id>` group is not in
the loaded registry returns the GroupNotFoundError response and performs
no external effect at all — no filesystem mutation, no registry write. -/
theorem C5_delete_absent_group (cid : Str) (services roles : List PyDict)
    (groups : PyDict) (env : DeleteEnv)
    (h : alookup ("formgrade-".data ++ cid) groups = none) :
    coursesDelete cid services roles groups env = (.groupNotFound, []) := by
  have h' : alookup
      ('f' :: 'o' :: 'r' :: 'm' :: 'g' :: 'r' :: 'a' :: 'd' :: 'e' :: '-' :: cid)
      groups = none := h
  simp [coursesDelete, h']

/-- C5 witness: deletion against an empty groups registry. -/
theorem C5_delete_absent_group_witness :
    coursesDelete ("c-1".data) svc0 role0 [] ⟨true, true, true, true, true⟩
      = (.groupNotFound, []) :=
  C5_delete_absent_group ("c-1".data) svc0 role0 [] ⟨true, true, true, true, true⟩ rfl

/-- C6 counterexample: when the file write succeeds but the
permission-tightening chmod fails, `write_autogenerated_config` does not
return success: the CalledProcessError is re-raised as
AutogeneratedFileError. -/
theorem C6_counterexample :
    (write_autogenerated_config ⟨true, false⟩ none svc0 role0 grp0).1
      = .error .autogeneratedFileError := rfl

/-- C6 amended: if the write succeeds and the chmod fails, the save
raises AutogeneratedFileError to the caller while the written registry
data is intact on disk. -/
theorem C6_chmod_failure_raises (disk : Option Str) (services roles : List PyDict)
    (groups : PyDict) :
    write_autogenerated_config ⟨true, false⟩ disk services roles groups
      = (.error .autogeneratedFileError,
         some (composeConfigCode services roles groups)) := rfl

/-- C7: registry file present but unreadable, and the `chmod 600` retry
action fails: the CalledProcessError escapes the load — the sibling
`except CalledProcessError` clause of the same `try` statement does not
catch exceptions raised inside the `except PermissionError` handler — so
the load does not fail with AutogeneratedFileError as specified. -/
theorem C7_chmod_failure_escapes :
    (read_autogenerated_config ⟨false, false, true, true⟩ (some ("x".data))).1
      = .error .calledProcessError
    ∧ (read_autogenerated_config ⟨false, false, true, true⟩ (some ("x".data))).1
      ≠ .error .autogeneratedFileError := by
  refine ⟨rfl, ?_⟩
  intro h
  rw [show (read_autogenerated_config ⟨false, false, true, true⟩ (some ("x".data))).1
      = Except.error PyErr.calledProcessError from rfl] at h
  injection h with h'
  exact absurd h' (by decide)

/-- C8 counterexample: `lstrip('formgrade-')` strips by character SET,
so for the membership-owning group `formgrade-demo` the computed owned
group is the empty string, not `demo` — the remainder is not preserved. -/
theorem C8_counterexample :
    ownedGroups ("u1".data) [("formgrade-demo".data, .flist ["u1".data])] = [[]]
    ∧ ([[]] : List Str) ≠ [("demo".data)] := ⟨by decide, by decide⟩

/-- C8 amended: the code strips the longest prefix of characters drawn
from the set `{f,o,r,m,g,a,d,e,-}`; for every group name
`formgrade- ++ rest` whose remainder is empty or starts with a character
outside that set (as the generated `formgrade-c-<hash>` group names do),
this coincides with removing the literal prefix `formgrade-` and
preserving the remainder. -/
theorem C8_lstrip_charset (rest : Str)
    (h : ∀ c ∈ rest.take 1, ¬ c ∈ ("formgrade-".data)) :
    pyLstrip ("formgrade-".data) ("formgrade-".data ++ rest) = rest := by
  show List.dropWhile (fun c => (("formgrade-".data : Str)).contains c)
    ('f' :: 'o' :: 'r' :: 'm' :: 'g' :: 'r' :: 'a' :: 'd' :: 'e' :: '-' :: rest) = rest
  rw [List.dropWhile_cons, if_pos (by decide), List.dropWhile_cons, if_pos (by decide),
    List.dropWhile_cons, if_pos (by decide), List.dropWhile_cons, if_pos (by decide),
    List.dropWhile_cons, if_pos (by decide), List.dropWhile_cons, if_pos (by decide),
    List.dropWhile_cons, if_pos (by decide), List.dropWhile_cons, if_pos (by decide),
    List.dropWhile_cons, if_pos (by decide), List.dropWhile_cons, if_pos (by decide)]
  cases rest with
  | nil => rfl
  | cons c cs =>
    have hc : ¬ c ∈ ("formgrade-".data : Str) := h c (by simp)
    rw [List.dropWhile_cons, if_neg (by simpa using hc)]

/-- C8 witness: a generated course group keeps exactly its course id. -/
theorem C8_lstrip_charset_witness :
    pyLstrip ("formgrade-".data) ("formgrade-".data ++ "c-1".data) = "c-1".data :=
  C8_lstrip_charset ("c-1".data) (by decide)

/-- C9: `models/enums.py` defines no `Subset.CURRENT` member, so the
current-course branch of `get_active_paths` is unreachable: for courses
with the remaining subset value the comparison `subset == Subset.CURRENT`
raises AttributeError instead of reading the LTI snapshot and returning
the single course path. -/
theorem C9_current_scope_attribute_error :
    get_active_paths envC2 ("u1".data) groupsC2 .COURSES .OTHER
      = .error .attributeError := rfl

/-- C10: if opening the registry file for writing raises PermissionError,
`write_autogenerated_config` catches it, only logs, and returns normally
— reporting success while the on-disk registry still holds its previous
content. -/
theorem C10_write_permission_swallowed (chmodOk : Bool) (disk : Option Str)
    (services roles : List PyDict) (groups : PyDict) :
    write_autogenerated_config ⟨false, chmodOk⟩ disk services roles groups
      = (.ok (), disk) := rfl
